import Mathlib

set_option maxRecDepth 10000

/-!
Verification of the kv storage engine core against its specification.

Shallow embedding of the C++ sources under src/: byte strings are `List Nat`
(each element a byte value), machine integers are `Nat` with explicit
`% 2 ^ 32` where 32-bit overflow matters, file streams are byte lists, and
each C++ function becomes an executable Lean definition that mirrors its
control flow.  Status messages are elided; only the status kind is kept.
-/

/-- Byte strings (`std::string` used as a byte container). -/
abbrev Bytes := List Nat

/-- Unsigned lexicographic `operator<` on byte strings (`std::string` compare). -/
def ltBytes : Bytes → Bytes → Bool
  | [], [] => false
  | [], _ :: _ => true
  | _ :: _, [] => false
  | a :: as, b :: bs => if a < b then true else if b < a then false else ltBytes as bs

/-- Comparison `a >= b` on byte strings, i.e. `!(a < b)`. -/
def geBytes (a b : Bytes) : Bool := ! ltBytes a b

/-- Status kinds from `common/status.h` (messages elided). -/
inductive Status where
  | ok
  | notFound
  | corruption
  | notSupported
  | invalidArgument
  | ioError
deriving DecidableEq, Repr

namespace sstable

/-- Function `EncodeFixed32` from `sstable/coding.h`: little-endian 4-byte encoding. -/
def encodeFixed32 (value : Nat) : List Nat :=
  [value &&& 0xFF, (value >>> 8) &&& 0xFF, (value >>> 16) &&& 0xFF, (value >>> 24) &&& 0xFF]

/-- Function `DecodeFixed32` from `sstable/coding.h`: reads 4 little-endian bytes
(out-of-range reads yield byte 0; the C++ callers never read past the end). -/
def decodeFixed32 (src : List Nat) : Nat :=
  src.getD 0 0 ||| (src.getD 1 0 <<< 8) ||| (src.getD 2 0 <<< 16) ||| (src.getD 3 0 <<< 24)

/-- The `while (value >= 0x80)` loop of `EncodeVarint32` from
`sstable/coding.h`, made structurally recursive on a fuel argument.  The fuel
only bounds recursion depth: the loop body shrinks `value` by `>>> 7` each
iteration, so with `fuel ≥ value` the zero-fuel fallback is reached only at
`value = 0`, where it coincides with the loop exit. -/
def encodeVarint32Fuel : Nat → Nat → List Nat
  | 0, value => [value % 256]
  | fuel + 1, value =>
    if value ≥ 0x80 then ((value ||| 0x80) % 256) :: encodeVarint32Fuel fuel (value >>> 7)
    else [value % 256]

/-- Function `EncodeVarint32` from `sstable/coding.h`: 7 data bits per byte, high bit set
while more bytes follow (`static_cast<uint8_t>` is modelled as `% 256`). -/
def encodeVarint32 (value : Nat) : List Nat :=
  encodeVarint32Fuel value value

/-- Loop body of `DecodeVarint32` from `sstable/coding.h`.  `i`, `shift`,
`result`, `count` are the loop variables; `result` is a `uint32_t`, so the
shifted chunk is reduced `% 2 ^ 32` before the bitwise or.  Returns
`some (count, value)` on success and `none` where the C++ returns `-1`.
The fuel starts at 5 and never runs out before the `i < 5` bound stops the
loop, so it does not alter the loop's semantics. -/
def decodeVarint32Aux (src : List Nat) (maxLen : Nat) :
    Nat → Nat → Nat → Nat → Nat → Option (Nat × Nat)
  | 0, _, _, _, _ => none
  | fuel + 1, i, shift, result, count =>
    if i < maxLen ∧ i < 5 then
      let b := src.getD i 0
      let result := result ||| (((b &&& 0x7F) <<< shift) % 2 ^ 32)
      let count := count + 1
      if b &&& 0x80 = 0 then some (count, result)
      else if shift + 7 ≥ 32 then none
      else decodeVarint32Aux src maxLen fuel (i + 1) (shift + 7) result count
    else none

/-- Function `DecodeVarint32` from `sstable/coding.h`: returns the byte count consumed
and the decoded value, or `none` on overflow / truncation. -/
def decodeVarint32 (src : List Nat) (maxLen : Nat) : Option (Nat × Nat) :=
  decodeVarint32Aux src maxLen 5 0 0 0 0

end sstable

/-- Function `kCRC32Table` from `wal/wal.cpp`, transcribed byte-exactly (including the
seven-digit literal `0xab13d59` at index 47). -/
def kCRC32Table : List Nat := [
  0x00000000, 0x77073096, 0xee0e612c, 0x990951ba, 0x076dc419, 0x706af48f, 0xe963a535, 0x9e6495a3,
  0x0edb8832, 0x79dcb8a4, 0xe0d5e91e, 0x97d2d988, 0x09b64c2b, 0x7eb17cbd, 0xe7b82d07, 0x90bf1d91,
  0x1db71064, 0x6ab020f2, 0xf3b97148, 0x84be41de, 0x1adad47d, 0x6ddde4eb, 0xf4d4b551, 0x83d385c7,
  0x136c9856, 0x646ba8c0, 0xfd62f97a, 0x8a65c9ec, 0x14015c4f, 0x63066cd9, 0xfa0f3d63, 0x8d080df5,
  0x3b6e20c8, 0x4c69105e, 0xd56041e4, 0xa2677172, 0x3c03e4d1, 0x4b04d447, 0xd20d85fd, 0xa50ab56b,
  0x35b5a8fa, 0x42b2986c, 0xdbbbc9d6, 0xacbcf940, 0x32d86ce3, 0x45df5c75, 0xdcd60dcf, 0xab13d59,
  0x26d930ac, 0x51de003a, 0xc8d75180, 0xbfd06116, 0x21b4f4b5, 0x56b3c423, 0xcfba9599, 0xb8bda50f,
  0x2802b89e, 0x5f058808, 0xc60cd9b2, 0xb10be924, 0x2f6f7c87, 0x58684c11, 0xc1611dab, 0xb6662d3d,
  0x76dc4190, 0x01db7106, 0x98d220bc, 0xefd5102a, 0x71b18589, 0x06b6b51f, 0x9fbfe4a5, 0xe8b8d433,
  0x7807c9a2, 0x0f00f934, 0x9609a88e, 0xe10e9818, 0x7f6a0dbb, 0x086d3d2d, 0x91646c97, 0xe6635c01,
  0x6b6b51f4, 0x1c6c6162, 0x856530d8, 0xf262004e, 0x6c0695ed, 0x1b01a57b, 0x8208f4c1, 0xf50fc457,
  0x65b0d9c6, 0x12b7e950, 0x8bbeb8ea, 0xfcb9887c, 0x62dd1ddf, 0x15da2d49, 0x8cd37cf3, 0xfbd44c65,
  0x4db26158, 0x3ab551ce, 0xa3bc0074, 0xd4bb30e2, 0x4adfa541, 0x3dd895d7, 0xa4d1c46d, 0xd3d6f4fb,
  0x4369e96a, 0x346ed9fc, 0xad678846, 0xda60b8d0, 0x44042d73, 0x33031de5, 0xaa0a4c5f, 0xdd0d7cc9,
  0x5005713c, 0x270241aa, 0xbe0b1010, 0xc90c2086, 0x5768b525, 0x206f85b3, 0xb966d409, 0xce61e49f,
  0x5edef90e, 0x29d9c998, 0xb0d09822, 0xc7d7a8b4, 0x59b33d17, 0x2eb40d81, 0xb7bd5c3b, 0xc0ba6cad,
  0xedb88320, 0x9abfb3b6, 0x03b6e20c, 0x74b1d29a, 0xead54739, 0x9dd277af, 0x04db2615, 0x73dc1683,
  0xe3630b12, 0x94643b84, 0x0d6d6a3e, 0x7a6a5aa8, 0xe40ecf0b, 0x9309ff9d, 0x0a00ae27, 0x7d079eb1,
  0xf00f9344, 0x8708a3d2, 0x1e01f268, 0x6906c2fe, 0xf762575d, 0x806567cb, 0x196c3671, 0x6e6b06e7,
  0xfed41b76, 0x89d32be0, 0x10da7a5a, 0x67dd4acc, 0xf9b9df6f, 0x8ebeeff9, 0x17b7be43, 0x60b08ed5,
  0xd6d6a3e8, 0xa1d1937e, 0x38d8c2c4, 0x4fdff252, 0xd1bb67f1, 0xa6bc5767, 0x3fb506dd, 0x48b2364b,
  0xd80d2bda, 0xaf0a1b4c, 0x36034af6, 0x41047a60, 0xdf60efc3, 0xa867df55, 0x316e8eef, 0x4669be79,
  0xcb61b38c, 0xbc66831a, 0x256fd2a0, 0x5268e236, 0xcc0c7795, 0xbb0b4703, 0x220216b9, 0x5505262f,
  0xc5ba3bbe, 0xb2bd0b28, 0x2bb45a92, 0x5cb36a04, 0xc2d7ffa7, 0xb5d0cf31, 0x2cd99e8b, 0x5bdeae1d,
  0x9b64c2b0, 0xec63f226, 0x756aa39c, 0x026d930a, 0x9c0906a9, 0xeb0e363f, 0x72076785, 0x05005713,
  0x95bf4a82, 0xe2b87a14, 0x7bb12bae, 0x0cb61b38, 0x92d28e9b, 0xe5d5be0d, 0x7cdcefb7, 0x0bdbdf21,
  0x86d3d2d4, 0xf1d4e242, 0x68ddb3f8, 0x1fda836e, 0x81be16cd, 0xf6b9265b, 0x6fb077e1, 0x18b74777,
  0x88085ae6, 0xff0f6a70, 0x66063bca, 0x11010b5c, 0x8f659eff, 0xf862ae69, 0x616bffd3, 0x166ccf45,
  0xa00ae278, 0xd70dd2ee, 0x4e048354, 0x3903b3c2, 0xa7672661, 0xd06016f7, 0x4969474d, 0x3e6e77db,
  0xaed16a4a, 0xd9d65adc, 0x40df0b66, 0x37d83bf0, 0xa9bcae53, 0xdebb9ec5, 0x47b2cf7f, 0x30b5ffe9,
  0xbdbdf21c, 0xcabac28a, 0x53b39330, 0x24b4a3a6, 0xbad03605, 0xcdd70693, 0x54de5729, 0x23d967bf,
  0xb3667a2e, 0xc4614ab8, 0x5d681b02, 0x2a6f2b94, 0xb40bbe37, 0xc30c8ea1, 0x5a05df1b, 0x2d02ef8d]

/-- One byte step of the table-driven CRC loop:
`crc = table[(crc ^ byte) & 0xFF] ^ (crc >> 8)`. -/
def crc32Step (table : List Nat) (crc b : Nat) : Nat :=
  table.getD ((crc ^^^ b) &&& 0xFF) 0 ^^^ (crc >>> 8)

/-- Function `CalculateCRC32` from `wal/wal.cpp`: xor-in `0xFFFFFFFF`, run the table
loop over the data, xor-out `0xFFFFFFFF`. -/
def calculateCRC32 (data : List Nat) (crc : Nat) : Nat :=
  (data.foldl (crc32Step kCRC32Table) (crc ^^^ 0xFFFFFFFF)) ^^^ 0xFFFFFFFF

/-- Modelled from the spec (for comparison with `kCRC32Table`): one table entry
of the standard reflected CRC-32 generated from polynomial `0xEDB88320`. -/
def standardReflectedCRC32Entry (n : Nat) : Nat :=
  (List.range 8).foldl
    (fun c _ => if c % 2 = 1 then (c >>> 1) ^^^ 0xEDB88320 else c >>> 1) n

/-- Modelled from the spec: the standard reflected CRC-32 lookup table
generated from polynomial `0xEDB88320`. -/
def standardReflectedCRC32Table : List Nat :=
  (List.range 256).map standardReflectedCRC32Entry

/-- Modelled from the spec: standard reflected CRC-32 (initial value
`0xFFFFFFFF`, final xor `0xFFFFFFFF`) over a byte string. -/
def standardReflectedCRC32 (data : List Nat) : Nat :=
  (data.foldl (crc32Step standardReflectedCRC32Table) 0xFFFFFFFF) ^^^ 0xFFFFFFFF

/-- The deletion marker from `memtable/memtable.cpp` and
`sstable/sstable_reader.cpp`: a single `0x00` byte in the value slot. -/
def tombstone : Bytes := [0]

/-- Lookup in the ordered map `table_` (`std::map<std::string, std::string>`),
modelled as an association list sorted by `ltBytes`. -/
def findEntry : List (Bytes × Bytes) → Bytes → Option Bytes
  | [], _ => none
  | (k', v) :: t, k => if k' = k then some v else findEntry t k

/-- Replace the value stored under an existing key (`it->second = value`). -/
def replaceEntry : List (Bytes × Bytes) → Bytes → Bytes → List (Bytes × Bytes)
  | [], _, _ => []
  | (k', v') :: t, k, v => if k' = k then (k, v) :: t else (k', v') :: replaceEntry t k v

/-- Insert a new key in `std::map` order (before the first strictly larger key). -/
def insertSorted : List (Bytes × Bytes) → Bytes → Bytes → List (Bytes × Bytes)
  | [], k, v => [(k, v)]
  | (k', v') :: t, k, v =>
    if ltBytes k k' then (k, v) :: (k', v') :: t else (k', v') :: insertSorted t k v

/-- State of a `MemTable` from `memtable/memtable.h`: the ordered `table_` and the
running `approximate_size_`. -/
structure MemTable where
  table : List (Bytes × Bytes)
  approximate_size : Nat
deriving DecidableEq, Repr

/-- Function `MemTable::MemTable()`: empty table, size accumulator 0. -/
def MemTable.empty : MemTable := ⟨[], 0⟩

/-- Function `MemTable::Put` from `memtable/memtable.cpp`: overwrite an existing entry
(subtracting the old `key+value` size and adding the new one) or insert a new
entry (adding `key+value`). -/
def MemTable.Put (m : MemTable) (key value : Bytes) : MemTable :=
  match findEntry m.table key with
  | some old =>
    { table := replaceEntry m.table key value,
      approximate_size :=
        m.approximate_size - (key.length + old.length) + (key.length + value.length) }
  | none =>
    { table := insertSorted m.table key value,
      approximate_size := m.approximate_size + key.length + value.length }

/-- Function `MemTable::Get` from `memtable/memtable.cpp`: `none` on a missing key and on
the deletion marker (`size()==1 && value[0]=='\0'`, i.e. the value `[0]`). -/
def MemTable.Get (m : MemTable) (key : Bytes) : Option Bytes :=
  match findEntry m.table key with
  | some v => if v = tombstone then none else some v
  | none => none

/-- Function `MemTable::Delete` from `memtable/memtable.cpp`: overwrite an existing
entry with the single-`0x00` marker (subtracting only the old value size and
adding 1) or insert the marker (adding `key length + 1`). -/
def MemTable.Delete (m : MemTable) (key : Bytes) : MemTable :=
  match findEntry m.table key with
  | some old =>
    { table := replaceEntry m.table key tombstone,
      approximate_size := m.approximate_size - old.length + 1 }
  | none =>
    { table := insertSorted m.table key tombstone,
      approximate_size := m.approximate_size + key.length + 1 }

/-- Total `key_len + stored_value_len` over the entries of a table (the
quantity `approximate_size_` is documented to track). -/
def entriesSize : List (Bytes × Bytes) → Nat
  | [] => 0
  | (k, v) :: t => k.length + v.length + entriesSize t

/-- One Put or Delete visitor event / memtable operation. -/
inductive BatchOp where
  | put (key value : Bytes)
  | del (key : Bytes)
deriving DecidableEq, Repr

/-- Apply a list of operations to a `MemTable` (the MemTable pass of
`DB::Write`, and the replay handler of `DB::RecoverFromWAL`). -/
def applyBatchOps (m : MemTable) (ops : List BatchOp) : MemTable :=
  ops.foldl (fun m op => match op with
    | .put k v => m.Put k v
    | .del k => m.Delete k) m

/-- Function `WriteBatch::Rep` from `write_batch.cpp`: the puts and the deletes are kept
in two separate vectors. -/
structure WriteBatch where
  puts : List (Bytes × Bytes)
  deletes : List Bytes
deriving DecidableEq, Repr

/-- A fresh `WriteBatch`. -/
def WriteBatch.empty : WriteBatch := ⟨[], []⟩

/-- Function `WriteBatch::Put`: append to the `puts` vector. -/
def WriteBatch.Put (b : WriteBatch) (key value : Bytes) : WriteBatch :=
  { b with puts := b.puts ++ [(key, value)] }

/-- Function `WriteBatch::Delete`: append to the `deletes` vector. -/
def WriteBatch.Delete (b : WriteBatch) (key : Bytes) : WriteBatch :=
  { b with deletes := b.deletes ++ [key] }

/-- Function `WriteBatch::Iterate` from `write_batch.cpp` as the sequence of visitor
callbacks it issues: all `Put`s first (in append order), then all `Delete`s
(in append order). -/
def WriteBatch.Iterate (b : WriteBatch) : List BatchOp :=
  b.puts.map (fun kv => .put kv.1 kv.2) ++ b.deletes.map .del

/-- Build a `WriteBatch` by appending the given operations in order. -/
def buildBatch (ops : List BatchOp) : WriteBatch :=
  ops.foldl (fun b op => match op with
    | .put k v => b.Put k v
    | .del k => b.Delete k) WriteBatch.empty

/-- Function `WALWriter::CalculateChecksum` from `wal/wal.cpp`: CRC32 chained over the
type byte, then the key (if non-empty), then the value (if non-empty). -/
def walCalculateChecksum (t : Nat) (key value : Bytes) : Nat :=
  let crc := calculateCRC32 [t % 256] 0
  let crc := if key.isEmpty then crc else calculateCRC32 key crc
  if value.isEmpty then crc else calculateCRC32 value crc

/-- Function `WALWriter::AddRecord` from `wal/wal.cpp` as the bytes it appends: type
byte, 4-byte LE key length, 4-byte LE value length, key, value, 4-byte LE
CRC32 over type‖key‖value. -/
def walAddRecord (t : Nat) (key value : Bytes) : List Nat :=
  t % 256 ::
    (sstable.encodeFixed32 key.length ++ sstable.encodeFixed32 value.length ++
      key ++ value ++ sstable.encodeFixed32 (walCalculateChecksum t key value))

/-- Function `WALReader::ReadFixed32`: consume 4 little-endian bytes from the stream, or
fail if fewer remain. -/
def readFixed32 : List Nat → Option (Nat × List Nat)
  | b0 :: b1 :: b2 :: b3 :: rest =>
    some (b0 ||| (b1 <<< 8) ||| (b2 <<< 16) ||| (b3 <<< 24), rest)
  | _ => none

/-- Outcome of `WALReader::ReadRecord`: `record` is `true` with `status=Ok`
(carrying the parsed fields and the unread remainder of the stream); the three
other constructors are `false` with the corresponding status. -/
inductive ReadRecordResult where
  | record (t : Nat) (key value : Bytes) (rest : List Nat)
  | eofOk
  | ioError
  | corruption
deriving DecidableEq, Repr

/-- Function `WALReader::ReadRecord` from `wal/wal.cpp` over the remaining stream bytes:
empty stream or a `kEof` (4) type byte is clean end-of-file; a truncated
header, key, value or checksum is `IOError`; a checksum mismatch is
`Corruption`; otherwise the record is produced with `status=Ok` (the type byte
is not validated here — `Replay` is what rejects unknown types). -/
def walReadRecord (input : List Nat) : ReadRecordResult :=
  match input with
  | [] => .eofOk
  | t :: rest =>
    if t = 4 then .eofOk
    else
      match readFixed32 rest with
      | none => .ioError
      | some (keyLen, rest) =>
        match readFixed32 rest with
        | none => .ioError
        | some (valueLen, rest) =>
          if rest.length < keyLen then .ioError
          else
            let key := rest.take keyLen
            let rest := rest.drop keyLen
            if rest.length < valueLen then .ioError
            else
              let value := rest.take valueLen
              let rest := rest.drop valueLen
              match readFixed32 rest with
              | none => .ioError
              | some (crc, rest) =>
                if walCalculateChecksum t key value = crc then .record t key value rest
                else .corruption

namespace sstable

/-- Function `BlockBuilder::SharedPrefixLength` from `block_builder.cpp`. -/
def sharedLen : Bytes → Bytes → Nat
  | a :: as, b :: bs => if a = b then 1 + sharedLen as bs else 0
  | _, _ => 0

/-- State of `BlockBuilder` from `block_builder.h`. -/
structure BlockBuilder where
  buffer : List Nat
  restart_points : List Nat
  last_key : Bytes
  restart_interval : Nat
  counter : Nat
  finished : Bool
deriving DecidableEq, Repr

/-- Function `BlockBuilder::BlockBuilder(restart_interval)`: first restart point at 0. -/
def BlockBuilder.init (restart_interval : Nat) : BlockBuilder :=
  ⟨[], [0], [], restart_interval, 0, false⟩

/-- Function `BlockBuilder::Add` from `block_builder.cpp`: emit a restart point every
`restart_interval` entries, then append
`varint(shared) varint(non_shared) varint(value_len) key_suffix value`.
Note that `last_key_` is not reset at a restart point, so the shared-prefix
length is computed against the previous key even for restart entries. -/
def BlockBuilder.Add (b : BlockBuilder) (key value : Bytes) : BlockBuilder :=
  if b.finished then b
  else
    let b :=
      if b.counter ≥ b.restart_interval then
        { b with restart_points := b.restart_points ++ [b.buffer.length], counter := 0 }
      else b
    let shared := if b.last_key.isEmpty then 0 else sharedLen b.last_key key
    let nonShared := key.length - shared
    let buffer := b.buffer ++ encodeVarint32 shared ++ encodeVarint32 nonShared ++
      encodeVarint32 value.length ++ key.drop shared ++ value
    { b with buffer := buffer, last_key := key, counter := b.counter + 1 }

/-- Function `BlockBuilder::Finish` from `block_builder.cpp` as the bytes it returns:
entry buffer, then each restart offset as LE fixed32, then the restart count. -/
def BlockBuilder.Finish (b : BlockBuilder) : List Nat :=
  if b.finished then b.buffer
  else
    b.buffer ++ (b.restart_points.map encodeFixed32).flatten ++
      encodeFixed32 b.restart_points.length

/-- State of `BlockReader` from `block_reader.h`. -/
structure BlockReader where
  block_data : List Nat
  restart_points : List Nat
  data_size : Nat
  current_offset : Nat
  current_key : Bytes
  current_value : Bytes
  previous_key : Bytes
  valid : Bool
deriving DecidableEq, Repr

/-- Function `BlockReader::BlockReader` plus `ReadRestartPoints` from
`block_reader.cpp`: parse the trailing restart count and offsets; any
malformed trailer leaves the reader invalid. -/
def BlockReader.init (bd : List Nat) : BlockReader :=
  let base : BlockReader := ⟨bd, [], 0, 0, [], [], [], false⟩
  if bd.length < 4 then base
  else
    let numRestarts := decodeFixed32 (bd.drop (bd.length - 4))
    if numRestarts = 0 ∨ bd.length < 4 + numRestarts * 4 then base
    else
      let restartOffset := bd.length - 4 - numRestarts * 4
      let pts := (List.range numRestarts).map
        (fun i => decodeFixed32 (bd.drop (restartOffset + i * 4)))
      if pts.all (· ≤ restartOffset) then
        { base with restart_points := pts, data_size := restartOffset, valid := true }
      else { base with data_size := restartOffset }

/-- Function `BlockReader::Valid`: the block parsed and the current key is non-empty. -/
def BlockReader.Valid (r : BlockReader) : Bool :=
  r.valid && !r.current_key.isEmpty

/-- Function `BlockReader::RebuildKey` from `block_reader.cpp`: a zero shared length
means the full key is stored; an over-long shared length yields `""`. -/
def rebuildKey (prev : Bytes) (shared : Nat) (nonSharedKey : Bytes) : Bytes :=
  if shared = 0 then nonSharedKey
  else if prev.length < shared then []
  else prev.take shared ++ nonSharedKey

/-- Function `BlockReader::DecodeEntry` from `block_reader.cpp`: decode the three
varints and the key/value bytes at `current_offset`, bounds-checked against
`data_size`; past-the-end is `NotFound`, malformed data is `Corruption`. -/
def BlockReader.DecodeEntry (r : BlockReader) : BlockReader × Status :=
  if r.current_offset ≥ r.data_size then
    ({ r with current_key := [], current_value := [] }, .notFound)
  else
    let data := r.block_data.drop r.current_offset
    let remaining := r.data_size - r.current_offset
    match decodeVarint32 data remaining with
    | none => ({ r with current_key := [], current_value := [] }, .corruption)
    | some (l1, shared) =>
      match decodeVarint32 (data.drop l1) (remaining - l1) with
      | none => ({ r with current_key := [], current_value := [] }, .corruption)
      | some (l2, nonShared) =>
        match decodeVarint32 ((data.drop l1).drop l2) (remaining - l1 - l2) with
        | none => ({ r with current_key := [], current_value := [] }, .corruption)
        | some (l3, valueLen) =>
          let rest := ((data.drop l1).drop l2).drop l3
          let rem := remaining - l1 - l2 - l3
          if nonShared > rem ∨ valueLen > rem - nonShared then
            ({ r with current_key := [], current_value := [] }, .corruption)
          else
            let key := rebuildKey r.previous_key shared (rest.take nonShared)
            ({ r with
                current_key := key,
                current_value := (rest.drop nonShared).take valueLen,
                previous_key := key,
                current_offset := r.current_offset + l1 + l2 + l3 + nonShared + valueLen },
             .ok)

/-- Function `BlockReader::Next` from `block_reader.cpp`. -/
def BlockReader.Next (r : BlockReader) : BlockReader × Status :=
  if r.current_offset ≥ r.data_size then
    ({ r with current_key := [], current_value := [] }, .notFound)
  else r.DecodeEntry

/-- Function `BlockReader::SeekToFirst` from `block_reader.cpp`. -/
def BlockReader.SeekToFirst (r : BlockReader) : BlockReader × Status :=
  if ¬r.valid ∨ r.restart_points.isEmpty then (r, .corruption)
  else
    ({ r with current_offset := r.restart_points.getD 0 0, previous_key := [] }).DecodeEntry

/-- One probe of `BlockReader::FindRestartPoint`'s loop body: decode the entry
at restart point `idx` with a cleared previous key; `some key` when
`DecodeEntry().ok() && Valid()`. -/
def BlockReader.probeRestartKey (r : BlockReader) (idx : Nat) : Option Bytes :=
  let probe := { r with current_offset := r.restart_points.getD idx 0, previous_key := [] }
  match probe.DecodeEntry with
  | (r', .ok) => if r'.Valid then some r'.current_key else none
  | _ => none

/-- The binary-search loop of `BlockReader::FindRestartPoint` from
`block_reader.cpp`.  `result` starts at `-1`; a probe whose key is `≥ target`
moves `right` down and records `mid`, a smaller key moves `left` up, and a
failed probe breaks out of the loop.  The fuel exceeds the iteration count of
any run (the interval shrinks every iteration), so it never alters the
result. -/
def findRestartPointLoop (r : BlockReader) (target : Bytes) :
    Nat → Int → Int → Int → Int
  | 0, _, _, result => result
  | fuel + 1, left, right, result =>
    if left ≤ right then
      let mid := (left + right) / 2
      match r.probeRestartKey mid.toNat with
      | some key =>
        if geBytes key target then findRestartPointLoop r target fuel left (mid - 1) mid
        else findRestartPointLoop r target fuel (mid + 1) right result
      | none => result
    else result

/-- Function `BlockReader::FindRestartPoint` from `block_reader.cpp`: binary search for
the first restart point whose key is `≥ target`; if none is found (or the
search broke early with no hit) fall back to the last restart point. -/
def BlockReader.FindRestartPoint (r : BlockReader) (target : Bytes) : Int :=
  let n := r.restart_points.length
  let result := findRestartPointLoop r target (n + 2) 0 ((n : Int) - 1) (-1)
  if result ≥ 0 then result else (n : Int) - 1

/-- The linear scan of `BlockReader::Seek`: starting from the state just after
a `DecodeEntry`, stop at the first entry whose key is `≥ target` (status `Ok`),
or exit with the last status once decoding stops.  The fuel exceeds the number
of entries any block body can hold, so it never alters the result. -/
def seekScanLoop (target : Bytes) :
    Nat → BlockReader × Status → BlockReader × Status
  | 0, rs => rs
  | fuel + 1, (r, st) =>
    if st = .ok ∧ r.Valid then
      if geBytes r.current_key target then (r, .ok)
      else seekScanLoop target fuel r.Next
    else (r, st)

/-- Function `BlockReader::Seek` from `block_reader.cpp`: find a restart point, then
linearly decode entries until the first key `≥ target`. -/
def BlockReader.Seek (r : BlockReader) (target : Bytes) : BlockReader × Status :=
  if ¬r.valid ∨ r.restart_points.isEmpty then (r, .corruption)
  else
    let idx := r.FindRestartPoint target
    let idx := if idx < 0 then 0 else idx
    let r := { r with current_offset := r.restart_points.getD idx.toNat 0, previous_key := [] }
    seekScanLoop target (r.data_size + 2) r.DecodeEntry

/-- Function `SSTableReader::Get` from `sstable_reader.cpp` (lines 164–191), from the
point where the data block body has been read and checksum-verified: seek the
block, require validity, an exact key match, and a non-tombstone value. -/
def sstableGetFromBlock (blockData : List Nat) (key : Bytes) : Status × Bytes :=
  let reader := BlockReader.init blockData
  if ¬reader.valid then (.corruption, [])
  else
    let (r, s) := reader.Seek key
    if s ≠ .ok then (s, [])
    else if ¬r.Valid then (.notFound, [])
    else if r.current_key ≠ key then (.notFound, [])
    else if r.current_value = tombstone then (.notFound, [])
    else (.ok, r.current_value)

end sstable

/-- An SSTable produced by `DB::FlushMemTable`, modelled by the body of its
data block.  For the memtable snapshots flushed in this development the
entries fit one data block (well under the 4 KiB target of
`SSTableBuilder::Add`), so the file's lookup behaviour is
`SSTableReader::Get` on that single block: `FindDataBlock` always selects the
sole data block, whose body round-trips through `WriteBlock`/`ReadBlock`
checksum-intact. -/
structure SSTableFile where
  block : List Nat
deriving DecidableEq, Repr

/-- The flush path of `DB::FlushMemTable`: iterate the memtable in ascending
key order, `SSTableBuilder::Add` each entry (tombstones included) into a data
block with restart interval 16, and finish the block. -/
def buildSSTableFile (entries : List (Bytes × Bytes)) : SSTableFile :=
  ⟨(entries.foldl (fun b kv => b.Add kv.1 kv.2) (sstable.BlockBuilder.init 16)).Finish⟩

/-- Engine state from `core/db.h`: live memtable, optional sealed (immutable)
memtable, SSTable catalog in creation order, and the configured
`write_buffer_size`.  WAL writing is elided: it only appends bytes to a file
and every append succeeds in this model. -/
structure DBState where
  memtable : MemTable
  imm_memtable : Option MemTable
  sstable_files : List SSTableFile
  write_buffer_size : Nat
deriving DecidableEq, Repr

/-- A freshly opened database (`DB::Open` on an empty directory). -/
def DBState.openDB (write_buffer_size : Nat) : DBState :=
  ⟨MemTable.empty, none, [], write_buffer_size⟩

/-- Function `DB::FlushMemTable` from `core/db.cpp`: build one SSTable from the sealed
memtable, append it to the catalog, and drop the sealed table (no-op when no
sealed table exists or it is empty). -/
def DBState.FlushMemTable (db : DBState) : DBState :=
  match db.imm_memtable with
  | none => db
  | some im =>
    if im.table.isEmpty then db
    else
      { db with
          sstable_files := db.sstable_files ++ [buildSSTableFile im.table],
          imm_memtable := none }

/-- Function `DB::MaybeScheduleFlush` from `core/db.cpp`: when the live memtable's
approximate size exceeds the threshold and no sealed memtable exists, seal the
live table, install a fresh one, and flush synchronously. -/
def DBState.MaybeScheduleFlush (db : DBState) : DBState :=
  let threshold := if db.write_buffer_size > 0 then db.write_buffer_size else 4 * 1024 * 1024
  if db.memtable.approximate_size > threshold then
    match db.imm_memtable with
    | none =>
      DBState.FlushMemTable
        { db with imm_memtable := some db.memtable, memtable := MemTable.empty }
    | some _ => db
  else db

/-- Function `DB::Put` from `core/db.cpp` (WAL append elided): memtable put, then the
flush check. -/
def DBState.Put (db : DBState) (key value : Bytes) : DBState :=
  DBState.MaybeScheduleFlush { db with memtable := db.memtable.Put key value }

/-- Function `DB::Delete` from `core/db.cpp` (WAL append elided): memtable delete, then
the flush check. -/
def DBState.Delete (db : DBState) (key : Bytes) : DBState :=
  DBState.MaybeScheduleFlush { db with memtable := db.memtable.Delete key }

/-- Function `DB::GetFromSSTable` from `core/db.cpp` over the catalog already reversed
to newest-first: return the first `Ok` value; on `NotFound` — including a
tombstone hit — and on any error, continue with the next (older) file; an
exhausted catalog is `NotFound` (`none`). -/
def getFromSSTableFiles : List SSTableFile → Bytes → Option Bytes
  | [], _ => none
  | f :: rest, key =>
    match sstable.sstableGetFromBlock f.block key with
    | (.ok, v) => some v
    | _ => getFromSSTableFiles rest key

/-- Function `DB::Get` from `core/db.cpp`: live memtable, then sealed memtable, then
the SSTable catalog newest-first; `some v` is `Ok` with value `v`, `none` is
`NotFound`. -/
def DBState.Get (db : DBState) (key : Bytes) : Option Bytes :=
  match db.memtable.Get key with
  | some v => some v
  | none =>
    match db.imm_memtable.bind (fun im => im.Get key) with
    | some v => some v
    | none => getFromSSTableFiles db.sstable_files.reverse key

/-- Apply a sequence of engine operations to a database state. -/
def applyDBOps (db : DBState) (ops : List BatchOp) : DBState :=
  ops.foldl (fun db op => match op with
    | .put k v => db.Put k v
    | .del k => db.Delete k) db

/-- Modelled from the spec (for comparison with `DBState.Get`): the value of
the last operation touching a key — the value of the last `Put` if that was
last, `none` if the last operation on the key was a `Delete` or no operation
touched it. -/
def lastOpOutcome (ops : List BatchOp) (key : Bytes) : Option Bytes :=
  ops.foldl (fun acc op => match op with
    | .put k v => if k = key then some v else acc
    | .del k => if k = key then none else acc) none

/-- Block built with restart interval 2 from the strictly ascending keys
`"a" "b" "c" "d"` (no shared prefixes), used to exercise
`BlockReader::FindRestartPoint`.  Restart points sit at `"a"` and `"c"`. -/
def abcdBlockBuilder : sstable.BlockBuilder :=
  ((((sstable.BlockBuilder.init 2).Add [97] [49]).Add [98] [50]).Add [99] [51]).Add [100] [52]

/-- The finished bytes of `abcdBlockBuilder`. -/
def abcdBlock : List Nat := abcdBlockBuilder.Finish

/-- Block built with restart interval 2 from the strictly ascending keys
`"aa" "ab" "ac"`, whose third entry begins at the second restart point. -/
def trioBlockBuilder : sstable.BlockBuilder :=
  (((sstable.BlockBuilder.init 2).Add [97, 97] [49]).Add [97, 98] [50]).Add [97, 99] [51]

/-- The finished bytes of `trioBlockBuilder`. -/
def trioBlock : List Nat := trioBlockBuilder.Finish

/-- A single-entry data block storing key `"k"` with the tombstone value,
as produced by `DB::FlushMemTable` for a memtable holding only that entry. -/
def singleTombstoneBlock : List Nat :=
  ((sstable.BlockBuilder.init 16).Add [107] tombstone).Finish

/-- C1: the claim fails on the code.  Open the engine with
`write_buffer_size = 2`, `Put("k", "vv")` (which seals and flushes `"k" ↦ "vv"`
into an SSTable), then `Delete("k")`.  The live MemTable now holds a tombstone
for `"k"` and no sealed MemTable exists, yet `DB::Get("k")` does not return
`NotFound`: `MemTable::Get` reports a tombstone as a plain miss, so `DB::Get`
falls through to the SSTable catalog and returns the old value `"vv"`.  The
flush path's stated purpose of writing tombstones "for proper deletion
propagation" (db.cpp) makes the claimed shadowing the evident intent. -/
theorem db_get_returns_value_shadowed_by_live_tombstone :
    (let db := applyDBOps (DBState.openDB 2) [.put [107] [118, 118], .del [107]]
     findEntry db.memtable.table [107] = some tombstone ∧
     db.imm_memtable = none ∧
     db.sstable_files.length = 1 ∧
     db.Get [107] = some [118, 118]) := by
  decide

/-- C2: the claim fails on the code.  `WriteBatch::Rep` keeps puts and deletes
in two separate vectors, so `Iterate` replays every `Put` before every
`Delete` instead of the append order.  On the example documented in
`write_batch.h` — `Put(k,v1); Delete(k); Put(k,v2); Put(k,v3)` is documented
to leave `k ↦ v3` — `Iterate` emits the puts first and the delete last, so
replaying the batch into a MemTable deletes `k` instead. -/
theorem write_batch_iterate_reorders_interleaved_operations :
    (let ops : List BatchOp :=
      [.put [107] [118, 49], .del [107], .put [107] [118, 50], .put [107] [118, 51]]
     (buildBatch ops).Iterate =
        [.put [107] [118, 49], .put [107] [118, 50], .put [107] [118, 51], .del [107]] ∧
     (buildBatch ops).Iterate ≠ ops ∧
     (applyBatchOps MemTable.empty ((buildBatch ops).Iterate)).Get [107] = none ∧
     (applyBatchOps MemTable.empty ops).Get [107] = some [118, 51]) := by
  decide

/-- C3: the claim fails on the code.  With `write_buffer_size = 1`, the
sequence `Put("k", "vv"); Delete("k")` flushes `"k" ↦ "vv"` into one SSTable
and the tombstone into a second, newer one.  The last operation touching
`"k"` is the `Delete`, yet `DB::Get("k")` returns the stale `"vv"`:
`GetFromSSTable` treats the newer file's tombstone `NotFound` as "keep
searching" and the older file's value wins. -/
theorem db_get_contradicts_last_operation_after_flush :
    (let ops : List BatchOp := [.put [107] [118, 118], .del [107]]
     lastOpOutcome ops [107] = none ∧
     (applyDBOps (DBState.openDB 1) ops).sstable_files.length = 2 ∧
     (applyDBOps (DBState.openDB 1) ops).Get [107] = some [118, 118]) := by
  decide

/-- C4: the claim fails on the code.  In `abcdBlock` the key `"b"` (byte 98)
is stored — it is the second entry — and `"b" ≥ "b"`, so after `Seek("b")` a
reader satisfying the contract would be positioned at `"b"`.  Instead
`FindRestartPoint` picks the first restart point whose key is `≥ "b"` (the
one at `"c"`), so the scan starts past `"b"` and `Seek` reports `"c"`. -/
theorem block_seek_skips_first_matching_entry_in_prior_restart_range :
    ((sstable.BlockReader.init abcdBlock).SeekToFirst.1.current_key = [97] ∧
     (sstable.BlockReader.init abcdBlock).SeekToFirst.1.Next.1.current_key = [98] ∧
     ((sstable.BlockReader.init abcdBlock).Seek [98]).2 = Status.ok ∧
     ((sstable.BlockReader.init abcdBlock).Seek [98]).1.Valid = true ∧
     ((sstable.BlockReader.init abcdBlock).Seek [98]).1.current_key = [99]) := by
  decide

/-- C5: the claim fails on the code.  In `trioBlockBuilder` the entry that
begins at the second restart-point offset (11) is encoded with shared-prefix
length 1, not 0: `BlockBuilder::Add` never resets `last_key_` at a restart
point, so the restart entry for `"ac"` shares `"a"` with the preceding key
`"ab"`.  Consequently the reader — whose `RebuildKey` assumes a restart entry
stores its full key — decodes an empty key at that restart point and
`Seek("ac")` comes back not-Valid even though `"ac"` is the third stored
entry. -/
theorem restart_point_entry_stored_with_nonzero_shared_len :
    (trioBlockBuilder.restart_points = [0, 11] ∧
     sstable.decodeVarint32 (trioBlockBuilder.buffer.drop 11)
        (trioBlockBuilder.buffer.length - 11) = some (1, 1) ∧
     (sstable.BlockReader.init trioBlock).SeekToFirst.1.Next.1.Next.1.current_key =
        [97, 99] ∧
     ((sstable.BlockReader.init trioBlock).Seek [97, 99]).2 = Status.ok ∧
     ((sstable.BlockReader.init trioBlock).Seek [97, 99]).1.Valid = false) := by
  decide

/-- C6: the claim fails on the code.  `kCRC32Table` in `wal.cpp` is the
standard reflected CRC-32 table except at index 47, where a dropped hex digit
turned `0xabd13d59` into `0x0ab13d59`.  The one-byte input `0xD0` indexes that
entry first (`(0xFFFFFFFF ^ 0xD0) & 0xFF = 47`), so the WAL CRC of `[0xD0]`
differs from the standard CRC-32; the claim's `CRC32("") = 0` part does hold. -/
theorem wal_crc32_differs_from_standard_crc32 :
    (kCRC32Table.getD 47 0 = 0x0ab13d59 ∧
     standardReflectedCRC32Table.getD 47 0 = 0xabd13d59 ∧
     calculateCRC32 [0xD0] 0 = 0xf5b13d59 ∧
     standardReflectedCRC32 [0xD0] = 0x54d13d59 ∧
     calculateCRC32 [0xD0] 0 ≠ standardReflectedCRC32 [0xD0] ∧
     calculateCRC32 [] 0 = 0) := by
  decide

/-- C7 counterexample: a record whose type byte is 9 — not one of the defined
record types 1..4 — but which is otherwise well-formed with a matching CRC is
*accepted* by `WALReader::ReadRecord` (`true` with `status=Ok`), not rejected
with `Corruption` as the claim states; the unknown-type `Corruption` is issued
by `Replay`, not `ReadRecord`. -/
theorem wal_readrecord_accepts_unknown_record_type :
    walReadRecord (walAddRecord 9 [97] [98]) = .record 9 [97] [98] [] := by
  decide

theorem findEntry_size_le (t : List (Bytes × Bytes)) (k old : Bytes)
    (h : findEntry t k = some old) : k.length + old.length ≤ entriesSize t := by
  induction t with
  | nil => simp [findEntry] at h
  | cons hd tl ih =>
    obtain ⟨k', v'⟩ := hd
    by_cases hk : k' = k
    · subst hk
      simp [findEntry] at h
      subst h
      simp only [entriesSize]
      omega
    · simp [findEntry, hk] at h
      have := ih h
      simp only [entriesSize]
      omega

theorem entriesSize_replaceEntry (t : List (Bytes × Bytes)) (k v old : Bytes)
    (h : findEntry t k = some old) :
    entriesSize (replaceEntry t k v) + old.length = entriesSize t + v.length := by
  induction t with
  | nil => simp [findEntry] at h
  | cons hd tl ih =>
    obtain ⟨k', v'⟩ := hd
    by_cases hk : k' = k
    · subst hk
      simp [findEntry] at h
      subst h
      simp only [replaceEntry, if_pos, entriesSize]
      omega
    · simp [findEntry, hk] at h
      have := ih h
      simp only [replaceEntry, hk, if_false, entriesSize, ite_false]
      omega

theorem entriesSize_insertSorted (t : List (Bytes × Bytes)) (k v : Bytes) :
    entriesSize (insertSorted t k v) = entriesSize t + k.length + v.length := by
  induction t with
  | nil => simp [insertSorted, entriesSize]
  | cons hd tl ih =>
    obtain ⟨k', v'⟩ := hd
    by_cases hlt : ltBytes k k'
    · simp only [insertSorted, hlt, if_true, entriesSize, ite_true]
      omega
    · simp only [insertSorted, hlt, entriesSize, ih, Bool.false_eq_true, ite_false]
      omega

theorem memtable_put_size_invariant (m : MemTable) (k v : Bytes)
    (h : m.approximate_size = entriesSize m.table) :
    (m.Put k v).approximate_size = entriesSize (m.Put k v).table := by
  unfold MemTable.Put
  cases hf : findEntry m.table k with
  | some old =>
    have h1 := entriesSize_replaceEntry m.table k v old hf
    have h2 := findEntry_size_le m.table k old hf
    simp only
    omega
  | none =>
    have h1 := entriesSize_insertSorted m.table k v
    simp only
    omega

theorem memtable_delete_size_invariant (m : MemTable) (k : Bytes)
    (h : m.approximate_size = entriesSize m.table) :
    (m.Delete k).approximate_size = entriesSize (m.Delete k).table := by
  unfold MemTable.Delete
  cases hf : findEntry m.table k with
  | some old =>
    have h1 := entriesSize_replaceEntry m.table k tombstone old hf
    have h2 := findEntry_size_le m.table k old hf
    have hlen : tombstone.length = 1 := rfl
    simp only
    omega
  | none =>
    have h1 := entriesSize_insertSorted m.table k tombstone
    have hlen : tombstone.length = 1 := rfl
    simp only
    omega

theorem applyBatchOps_size_invariant (ops : List BatchOp) (m : MemTable)
    (h : m.approximate_size = entriesSize m.table) :
    (applyBatchOps m ops).approximate_size = entriesSize (applyBatchOps m ops).table := by
  induction ops generalizing m with
  | nil => simpa [applyBatchOps]
  | cons op ops ih =>
    cases op with
    | put k v =>
      have := memtable_put_size_invariant m k v h
      simpa [applyBatchOps] using ih (m.Put k v) this
    | del k =>
      have := memtable_delete_size_invariant m k h
      simpa [applyBatchOps] using ih (m.Delete k) this

/-- C8: for every sequence of Put and Delete operations applied to a fresh
MemTable, `approximate_size_` equals the sum over the stored entries of
key length plus stored value length — a tombstone entry stores the 1-byte
marker, so it contributes key length + 1.  The invariant is maintained by
every insert, overwrite and delete. -/
theorem memtable_approximate_size_equals_entries_size (ops : List BatchOp) :
    (applyBatchOps MemTable.empty ops).approximate_size =
      entriesSize (applyBatchOps MemTable.empty ops).table :=
  applyBatchOps_size_invariant ops MemTable.empty rfl

theorem findEntry_replaceEntry (t : List (Bytes × Bytes)) (k v old : Bytes)
    (h : findEntry t k = some old) : findEntry (replaceEntry t k v) k = some v := by
  induction t with
  | nil => simp [findEntry] at h
  | cons hd tl ih =>
    obtain ⟨k', v'⟩ := hd
    by_cases hk : k' = k
    · subst hk
      simp [replaceEntry, findEntry]
    · simp [findEntry, hk] at h
      simp [replaceEntry, findEntry, hk, ih h]

theorem findEntry_insertSorted (t : List (Bytes × Bytes)) (k v : Bytes)
    (h : findEntry t k = none) : findEntry (insertSorted t k v) k = some v := by
  induction t with
  | nil => simp [insertSorted, findEntry]
  | cons hd tl ih =>
    obtain ⟨k', v'⟩ := hd
    by_cases hk : k' = k
    · simp [findEntry, hk] at h
    · simp [findEntry, hk] at h
      by_cases hlt : ltBytes k k'
      · simp [insertSorted, hlt, findEntry, hk]
      · simp [insertSorted, hlt, findEntry, hk, ih h]

theorem memtable_put_tombstone_eq_delete_table (m : MemTable) (k : Bytes) :
    (m.Put k tombstone).table = (m.Delete k).table := by
  unfold MemTable.Put MemTable.Delete
  cases findEntry m.table k <;> simp

theorem memtable_get_after_put_tombstone (m : MemTable) (k : Bytes) :
    (m.Put k tombstone).Get k = none := by
  unfold MemTable.Get
  cases hf : findEntry m.table k with
  | some old =>
    have h1 : findEntry (m.Put k tombstone).table k = some tombstone := by
      unfold MemTable.Put
      rw [hf]
      exact findEntry_replaceEntry m.table k tombstone old hf
    rw [h1]
    simp
  | none =>
    have h1 : findEntry (m.Put k tombstone).table k = some tombstone := by
      unfold MemTable.Put
      rw [hf]
      exact findEntry_insertSorted m.table k tombstone hf
    rw [h1]
    simp

/-- C10: a `Put` of the one-byte value `0x00` is indistinguishable from a
`Delete` at the read interface.  `MemTable::Put k [0]` and `MemTable::Delete k`
produce the same table (both store the single-`0x00` marker), `MemTable::Get`
then reports the key as absent, and `SSTableReader::Get`, positioned by `Seek`
on an exact-match entry whose stored value is `[0]`, returns `NotFound`. -/
theorem put_single_zero_byte_reads_as_absent
    (m : MemTable) (k : Bytes) (blockData : List Nat) (r : sstable.BlockReader)
    (hseek : (sstable.BlockReader.init blockData).Seek k = (r, Status.ok))
    (hvalid : r.Valid = true) (hkey : r.current_key = k)
    (hval : r.current_value = tombstone) :
    (m.Put k tombstone).table = (m.Delete k).table ∧
    (m.Put k tombstone).Get k = none ∧
    (sstable.sstableGetFromBlock blockData k).1 = Status.notFound := by
  refine ⟨memtable_put_tombstone_eq_delete_table m k,
          memtable_get_after_put_tombstone m k, ?_⟩
  have hrvalid : (sstable.BlockReader.init blockData).valid = true := by
    by_contra hnot
    rw [sstable.BlockReader.Seek, if_pos (Or.inl hnot)] at hseek
    exact Status.noConfusion (congrArg Prod.snd hseek)
  simp [sstable.sstableGetFromBlock, hrvalid, hseek, hvalid, hkey, hval]

theorem put_single_zero_byte_reads_as_absent_witness :
    (MemTable.empty.Put [107] tombstone).table = (MemTable.empty.Delete [107]).table ∧
    (MemTable.empty.Put [107] tombstone).Get [107] = none ∧
    (sstable.sstableGetFromBlock singleTombstoneBlock [107]).1 = Status.notFound :=
  put_single_zero_byte_reads_as_absent MemTable.empty [107] singleTombstoneBlock
    ((sstable.BlockReader.init singleTombstoneBlock).Seek [107]).1
    (by decide) (by decide) (by decide) (by decide)

theorem encodeVarint32Fuel_congr (fuel₁ : Nat) :
    ∀ fuel₂ n, n ≤ fuel₁ → n ≤ fuel₂ →
      sstable.encodeVarint32Fuel fuel₁ n = sstable.encodeVarint32Fuel fuel₂ n := by
  induction fuel₁ with
  | zero =>
    intro fuel₂ n h1 _
    have hn : n = 0 := Nat.le_zero.mp h1
    subst hn
    cases fuel₂ <;> simp [sstable.encodeVarint32Fuel]
  | succ f ih =>
    intro fuel₂ n h1 h2
    by_cases hn : n ≥ 128
    · obtain ⟨f₂, rfl⟩ : ∃ f₂, fuel₂ = f₂ + 1 := ⟨fuel₂ - 1, by omega⟩
      simp only [sstable.encodeVarint32Fuel, if_pos hn]
      congr 1
      have hdiv : n >>> 7 = n / 2 ^ 7 := Nat.shiftRight_eq_div_pow n 7
      have hlt : n / 2 ^ 7 < n := Nat.div_lt_self (by omega) (by norm_num)
      exact ih f₂ (n >>> 7) (by omega) (by omega)
    · cases fuel₂ with
      | zero =>
        have : n = 0 := Nat.le_zero.mp h2
        subst this
        simp [sstable.encodeVarint32Fuel]
      | succ f₂ => simp [sstable.encodeVarint32Fuel, hn]

theorem encodeVarint32_unfold (n : Nat) :
    sstable.encodeVarint32 n =
      if 128 ≤ n then ((n ||| 128) % 256) :: sstable.encodeVarint32 (n >>> 7)
      else [n % 256] := by
  unfold sstable.encodeVarint32
  cases n with
  | zero => simp [sstable.encodeVarint32Fuel]
  | succ m =>
    by_cases hn : 128 ≤ m + 1
    · have hge : m + 1 ≥ 128 := hn
      simp only [sstable.encodeVarint32Fuel, if_pos hge, if_pos hn]
      congr 1
      have hdiv : (m + 1) >>> 7 = (m + 1) / 2 ^ 7 := Nat.shiftRight_eq_div_pow (m + 1) 7
      have hlt : (m + 1) / 2 ^ 7 < m + 1 := Nat.div_lt_self (by omega) (by norm_num)
      exact encodeVarint32Fuel_congr m _ _ (by omega) (by omega)
    · simp [sstable.encodeVarint32Fuel, hn]

theorem encodeVarint32_length_le (k : Nat) :
    ∀ n, n < 2 ^ (7 * (k + 1)) → (sstable.encodeVarint32 n).length ≤ k + 1 := by
  induction k with
  | zero =>
    intro n hn
    rw [encodeVarint32_unfold]
    have h : ¬ 128 ≤ n := by norm_num at hn; omega
    simp [h]
  | succ k ih =>
    intro n hn
    rw [encodeVarint32_unfold]
    by_cases h : 128 ≤ n
    · simp only [h, ite_true, List.length_cons]
      have hlt : n >>> 7 < 2 ^ (7 * (k + 1)) := by
        rw [Nat.shiftRight_eq_div_pow]
        rw [Nat.div_lt_iff_lt_mul (by positivity)]
        calc n < 2 ^ (7 * (k + 2)) := hn
        _ = 2 ^ (7 * (k + 1)) * 2 ^ 7 := by rw [← Nat.pow_add]; ring_nf
      have := ih _ hlt
      omega
    · simp [h]

theorem getD_of_drop (src : List Nat) (i b : Nat) (l : List Nat)
    (h : src.drop i = b :: l) : src.getD i 0 = b := by
  have h0 : (src.drop i)[0]? = src[i + 0]? := List.getElem?_drop src i 0
  rw [h] at h0
  simp only [List.getElem?_cons_zero, Nat.add_zero] at h0
  rw [List.getD_eq_getElem?_getD, ← h0]
  rfl

theorem drop_succ_of_drop (src : List Nat) (i b : Nat) (l : List Nat)
    (h : src.drop i = b :: l) : src.drop (i + 1) = l := by
  have h2 : src.drop (i + 1) = (src.drop i).drop 1 := (List.drop_drop 1 i src).symm
  rw [h2, h]
  rfl

theorem or128_mod256 (n : Nat) : (n ||| 128) % 256 = n % 128 + 128 := by
  have h128 : (128 : Nat) = 2 ^ 7 := by norm_num
  have hrhs : n % 128 + 128 = 2 ^ 7 * 1 + n % 2 ^ 7 := by rw [← h128]; omega
  have hor := Nat.mul_add_lt_is_or (show n % 2 ^ 7 < 2 ^ 7 from Nat.mod_lt n (by positivity)) 1
  rw [hrhs, hor, Nat.mul_one]
  have h256 : (256 : Nat) = 2 ^ 8 := by norm_num
  rw [h128, h256]
  apply Nat.eq_of_testBit_eq
  intro j
  simp only [Nat.testBit_mod_two_pow, Nat.testBit_or, Nat.testBit_two_pow]
  by_cases h7 : 7 = j
  · subst h7; simp
  · by_cases h8 : j < 8
    · have hj7 : j < 7 := by omega
      simp [h7, h8, hj7]
    · have hj7 : ¬ j < 7 := by omega
      simp [h7, h8, hj7]

theorem byte_and127 (n : Nat) : (n % 128 + 128) &&& 127 = n % 128 := by
  have h127 : (127 : Nat) = 2 ^ 7 - 1 := by norm_num
  rw [h127, Nat.and_pow_two_sub_one_eq_mod]
  omega

theorem byte_and128_ne (n : Nat) : (n % 128 + 128) &&& 128 ≠ 0 := by
  intro h0
  have h1 := congrArg (fun x => x.testBit 7) h0
  simp only [Nat.testBit_and, Nat.zero_testBit] at h1
  have hb : (n % 128 + 128).testBit 7 = true := by
    rw [Nat.testBit_to_div_mod]
    have hd : (n % 128 + 128) / 2 ^ 7 = 1 := by
      have : (2 : Nat) ^ 7 = 128 := by norm_num
      omega
    simp [hd]
  rw [hb] at h1
  simp only [Bool.true_and] at h1
  exact absurd h1 (by decide)

theorem small_and127 (n : Nat) (h : n < 128) : n &&& 127 = n := by
  have h127 : (127 : Nat) = 2 ^ 7 - 1 := by norm_num
  rw [h127, Nat.and_pow_two_sub_one_eq_mod]
  omega

theorem small_and128 (n : Nat) (h : n < 128) : n &&& 128 = 0 := by
  have h128 : (128 : Nat) = 2 ^ 7 := by norm_num
  rw [h128]
  apply Nat.eq_of_testBit_eq
  intro j
  simp only [Nat.testBit_and, Nat.testBit_two_pow, Nat.zero_testBit]
  by_cases h7 : 7 = j
  · subst h7
    have : n.testBit 7 = false := Nat.testBit_lt_two_pow (by norm_num at h ⊢; omega)
    simp [this]
  · simp [h7]

theorem shiftLeft_lt_two_pow_32 (n shift : Nat) (h : n < 2 ^ (32 - shift)) :
    n <<< shift < 2 ^ 32 := by
  rw [Nat.shiftLeft_eq]
  by_cases hs : shift ≤ 32
  · calc n * 2 ^ shift < 2 ^ (32 - shift) * 2 ^ shift :=
          (Nat.mul_lt_mul_right (Nat.two_pow_pos shift)).mpr h
    _ = 2 ^ 32 := by rw [← Nat.pow_add]; congr 1; omega
  · have h0 : n = 0 := by
      have h32 : 32 - shift = 0 := by omega
      rw [h32] at h
      omega
    subst h0
    simp

theorem chunk_split (n shift : Nat) :
    ((n % 128) <<< shift) ||| ((n >>> 7) <<< (shift + 7)) = n <<< shift := by
  have h128 : (128 : Nat) = 2 ^ 7 := by norm_num
  have hb : (n % 128) * 2 ^ shift < 2 ^ (shift + 7) := by
    have h1 : n % 128 < 2 ^ 7 := by rw [← h128]; exact Nat.mod_lt n (by norm_num)
    calc (n % 128) * 2 ^ shift < 2 ^ 7 * 2 ^ shift :=
          (Nat.mul_lt_mul_right (Nat.two_pow_pos shift)).mpr h1
    _ = 2 ^ (shift + 7) := by rw [← Nat.pow_add]; ring_nf
  have hor := Nat.mul_add_lt_is_or hb (n >>> 7)
  rw [Nat.shiftLeft_eq, Nat.shiftLeft_eq, Nat.shiftLeft_eq, Nat.lor_comm,
    Nat.mul_comm (n >>> 7) (2 ^ (shift + 7)), ← hor, Nat.shiftRight_eq_div_pow]
  have harith : 2 ^ (shift + 7) * (n / 2 ^ 7) + n % 128 * 2 ^ shift =
      (2 ^ 7 * (n / 2 ^ 7) + n % 2 ^ 7) * 2 ^ shift := by
    rw [← h128]
    ring
  rw [harith, Nat.div_add_mod]

theorem decodeVarint32Aux_encode (rest : List Nat) (maxLen : Nat) :
    ∀ n src (i shift result count : Nat),
      src.drop i = sstable.encodeVarint32 n ++ rest →
      n < 2 ^ (32 - shift) →
      i + (sstable.encodeVarint32 n).length ≤ maxLen →
      i + (sstable.encodeVarint32 n).length ≤ 5 →
      sstable.decodeVarint32Aux src maxLen (5 - i) i shift result count =
        some (count + (sstable.encodeVarint32 n).length, result ||| (n <<< shift)) := by
  intro n
  induction n using Nat.strong_induction_on with
  | _ n ih =>
    intro src i shift result count hdrop hn hmax hi5
    rw [encodeVarint32_unfold] at hdrop hmax hi5 ⊢
    by_cases h128 : 128 ≤ n
    · simp only [h128, ite_true] at hdrop hmax hi5 ⊢
      simp only [List.length_cons] at hmax hi5
      have hlen1 : 1 ≤ (sstable.encodeVarint32 (n >>> 7)).length := by
        rw [encodeVarint32_unfold]
        by_cases h : 128 ≤ n >>> 7 <;> simp [h]
      obtain ⟨f, hf⟩ : ∃ f, 5 - i = f + 1 := ⟨5 - i - 1, by omega⟩
      rw [hf]
      have hb : src.getD i 0 = (n ||| 128) % 256 := by
        apply getD_of_drop src i _ _
        rw [hdrop]
        rfl
      rw [sstable.decodeVarint32Aux, if_pos (by omega : i < maxLen ∧ i < 5)]
      simp only [hb, or128_mod256, byte_and127]
      rw [if_neg (byte_and128_ne n)]
      have hshift : shift < 25 := by
        by_contra hs
        have h1 : 32 - shift ≤ 7 := by omega
        have h2 : n < 2 ^ 7 :=
          lt_of_lt_of_le hn (Nat.pow_le_pow_right (by norm_num) h1)
        norm_num at h2
        omega
      rw [if_neg (by omega : ¬ shift + 7 ≥ 32)]
      have hmodless : ((n % 128) <<< shift) % 2 ^ 32 = (n % 128) <<< shift := by
        apply Nat.mod_eq_of_lt
        apply shiftLeft_lt_two_pow_32
        have : n % 128 < 2 ^ 7 := by
          have : (128 : Nat) = 2 ^ 7 := by norm_num
          rw [← this]
          exact Nat.mod_lt n (by norm_num)
        calc n % 128 < 2 ^ 7 := this
        _ ≤ 2 ^ (32 - shift) := Nat.pow_le_pow_right (by norm_num) (by omega)
      rw [hmodless]
      have hf' : f = 5 - (i + 1) := by omega
      have hdrop' : src.drop (i + 1) = sstable.encodeVarint32 (n >>> 7) ++ rest :=
        drop_succ_of_drop src i _ _ (by rw [hdrop]; rfl)
      have hn' : n >>> 7 < 2 ^ (32 - (shift + 7)) := by
        rw [Nat.shiftRight_eq_div_pow]
        rw [Nat.div_lt_iff_lt_mul (by positivity)]
        calc n < 2 ^ (32 - shift) := hn
        _ = 2 ^ (32 - (shift + 7)) * 2 ^ 7 := by
          rw [← Nat.pow_add]
          congr 1
          omega
      rw [hf']
      rw [ih (n >>> 7)
        (by
          have : n >>> 7 = n / 2 ^ 7 := Nat.shiftRight_eq_div_pow n 7
          have : n / 2 ^ 7 < n := Nat.div_lt_self (by omega) (by norm_num)
          omega)
        src (i + 1) (shift + 7) (result ||| (n % 128) <<< shift) (count + 1)
        hdrop' hn' (by omega) (by omega)]
      simp only [List.length_cons]
      congr 2
      · omega
      · rw [Nat.lor_assoc, chunk_split]
    · simp only [h128, ite_false] at hdrop hmax hi5 ⊢
      simp only [List.length_singleton] at hmax hi5
      have hmod : n % 256 = n := Nat.mod_eq_of_lt (by omega)
      rw [hmod] at hdrop
      obtain ⟨f, hf⟩ : ∃ f, 5 - i = f + 1 := ⟨5 - i - 1, by omega⟩
      rw [hf]
      have hb : src.getD i 0 = n := getD_of_drop src i _ _ (by rw [hdrop]; rfl)
      rw [sstable.decodeVarint32Aux, if_pos (by omega : i < maxLen ∧ i < 5)]
      simp only [hb, small_and127 n (by omega), small_and128 n (by omega)]
      have hmodless : (n <<< shift) % 2 ^ 32 = n <<< shift :=
        Nat.mod_eq_of_lt (shiftLeft_lt_two_pow_32 n shift hn)
      rw [hmodless]
      simp [hmod]

/-- C9: for every `n < 2^32`, `DecodeVarint32` applied to the bytes produced
by `EncodeVarint32(n)` (with any trailing bytes and any sufficient `max_len`)
returns `n` together with a consumed-byte count equal to the number of bytes
the encoder wrote, and the encoding is at most 5 bytes long. -/
theorem varint32_roundtrip (n maxLen : Nat) (rest : List Nat) (hn : n < 2 ^ 32)
    (hmax : (sstable.encodeVarint32 n).length ≤ maxLen) :
    sstable.decodeVarint32 (sstable.encodeVarint32 n ++ rest) maxLen =
      some ((sstable.encodeVarint32 n).length, n) ∧
    (sstable.encodeVarint32 n).length ≤ 5 := by
  have hlen : (sstable.encodeVarint32 n).length ≤ 5 := by
    have h35 : n < 2 ^ (7 * (4 + 1)) := lt_of_lt_of_le hn (by norm_num)
    exact encodeVarint32_length_le 4 n h35
  refine ⟨?_, hlen⟩
  have h := decodeVarint32Aux_encode rest maxLen n
    (sstable.encodeVarint32 n ++ rest) 0 0 0 0
    (by simp) (by simpa using hn) (by omega) (by omega)
  simpa [sstable.decodeVarint32, Nat.shiftLeft_zero, Nat.zero_or] using h

theorem varint32_roundtrip_witness :
    sstable.decodeVarint32 (sstable.encodeVarint32 300 ++ [7]) 5 =
      some ((sstable.encodeVarint32 300).length, 300) ∧
    (sstable.encodeVarint32 300).length ≤ 5 :=
  varint32_roundtrip 300 5 [7] (by decide) (by decide)

theorem lor_shiftLeft_acc (a b k : Nat) (ha : a < 2 ^ k) :
    a ||| (b <<< k) = a + 2 ^ k * b := by
  rw [Nat.shiftLeft_eq, Nat.mul_comm b (2 ^ k), Nat.lor_comm,
    ← Nat.mul_add_lt_is_or ha b, Nat.add_comm]

theorem and255_eq_mod (x : Nat) : x &&& 255 = x % 256 := by
  have h : (255 : Nat) = 2 ^ 8 - 1 := by norm_num
  rw [h, Nat.and_pow_two_sub_one_eq_mod]

theorem fixed32_reassemble (n : Nat) (h : n < 2 ^ 32) :
    (n &&& 255) ||| (((n >>> 8) &&& 255) <<< 8) ||| (((n >>> 16) &&& 255) <<< 16) |||
      (((n >>> 24) &&& 255) <<< 24) = n := by
  rw [and255_eq_mod, and255_eq_mod, and255_eq_mod, and255_eq_mod,
    Nat.shiftRight_eq_div_pow, Nat.shiftRight_eq_div_pow, Nat.shiftRight_eq_div_pow]
  rw [lor_shiftLeft_acc _ _ 8 (by omega)]
  rw [lor_shiftLeft_acc _ _ 16 (by norm_num; omega)]
  rw [lor_shiftLeft_acc _ _ 24 (by norm_num; omega)]
  norm_num; omega

theorem readFixed32_encodeFixed32 (n : Nat) (h : n < 2 ^ 32) (rest : List Nat) :
    readFixed32 (sstable.encodeFixed32 n ++ rest) = some (n, rest) := by
  simp only [sstable.encodeFixed32, List.cons_append, List.nil_append, readFixed32]
  rw [fixed32_reassemble n h]

theorem kCRC32Table_getD_lt (i : Nat) : kCRC32Table.getD i 0 < 2 ^ 32 := by
  have hmem : ∀ x ∈ kCRC32Table, x < 2 ^ 32 := by decide
  rw [List.getD_eq_getElem?_getD]
  cases hx : kCRC32Table[i]? with
  | none => norm_num
  | some x =>
    have hm : x ∈ kCRC32Table := List.getElem?_mem hx
    simpa using hmem x hm

theorem crc32Step_kTable_lt (crc b : Nat) (h : crc < 2 ^ 32) :
    crc32Step kCRC32Table crc b < 2 ^ 32 := by
  unfold crc32Step
  refine Nat.xor_lt_two_pow (kCRC32Table_getD_lt _) ?_
  calc crc >>> 8 ≤ crc := by rw [Nat.shiftRight_eq_div_pow]; exact Nat.div_le_self _ _
  _ < 2 ^ 32 := h

theorem foldl_crc32Step_lt (data : List Nat) :
    ∀ crc, crc < 2 ^ 32 → data.foldl (crc32Step kCRC32Table) crc < 2 ^ 32 := by
  induction data with
  | nil => intro crc h; simpa
  | cons b t ih => intro crc h; exact ih _ (crc32Step_kTable_lt crc b h)

theorem calculateCRC32_lt (data : List Nat) (crc : Nat) (h : crc < 2 ^ 32) :
    calculateCRC32 data crc < 2 ^ 32 := by
  unfold calculateCRC32
  exact Nat.xor_lt_two_pow
    (foldl_crc32Step_lt data _ (Nat.xor_lt_two_pow h (by norm_num))) (by norm_num)

theorem walCalculateChecksum_lt (t : Nat) (key value : Bytes) :
    walCalculateChecksum t key value < 2 ^ 32 := by
  unfold walCalculateChecksum
  have h1 : calculateCRC32 [t % 256] 0 < 2 ^ 32 := calculateCRC32_lt _ 0 (by norm_num)
  by_cases hk : key.isEmpty <;> by_cases hv : value.isEmpty <;>
    simp only [hk, hv, ite_true, ite_false] <;>
    first
      | exact h1
      | exact calculateCRC32_lt _ _ h1
      | exact calculateCRC32_lt _ _ (calculateCRC32_lt _ _ h1)

theorem length_append_not_lt (l₁ l₂ : List Nat) : ¬ (l₁ ++ l₂).length < l₁.length := by
  rw [List.length_append]
  omega

/-- C7 (amended): `WALReader::ReadRecord` returns `true` with `status=Ok`
exactly on a syntactically complete record with a matching CRC — *including*
records whose type byte is not one of the defined record types, which it does
not validate (the unknown-type `Corruption` is issued by `Replay`).  It
returns `false` with `status=Ok` on an empty stream and on a `kEof` (4) type
byte; `false` with `IOError` on a truncated header, truncated key or value
bytes, or a truncated checksum; and `false` with `Corruption` on a CRC
mismatch. -/
theorem wal_readrecord_behaviour (t : Nat) (key value : Bytes) (rest : List Nat)
    (ht : t < 256) (ht4 : t ≠ 4)
    (hk : key.length + 1 < 2 ^ 32) (hv : value.length + 1 < 2 ^ 32) :
    walReadRecord [] = ReadRecordResult.eofOk ∧
    walReadRecord (4 :: rest) = ReadRecordResult.eofOk ∧
    walReadRecord (walAddRecord t key value ++ rest) =
      ReadRecordResult.record t key value rest ∧
    walReadRecord [t] = ReadRecordResult.ioError ∧
    walReadRecord (t :: (sstable.encodeFixed32 (key.length + 1) ++
      (sstable.encodeFixed32 value.length ++ key))) = ReadRecordResult.ioError ∧
    walReadRecord (t :: (sstable.encodeFixed32 key.length ++
      (sstable.encodeFixed32 (value.length + 1) ++ (key ++ value)))) =
      ReadRecordResult.ioError ∧
    walReadRecord (t :: (sstable.encodeFixed32 key.length ++
      (sstable.encodeFixed32 value.length ++ (key ++ value)))) =
      ReadRecordResult.ioError ∧
    walReadRecord (t :: (sstable.encodeFixed32 key.length ++
      (sstable.encodeFixed32 value.length ++ (key ++ (value ++
        (sstable.encodeFixed32 ((walCalculateChecksum t key value + 1) % 2 ^ 32) ++
          rest)))))) = ReadRecordResult.corruption := by
  have hck := walCalculateChecksum_lt t key value
  refine ⟨rfl, ?_, ?_, ?_, ?_, ?_, ?_, ?_⟩
  · simp [walReadRecord]
  · simp only [walAddRecord, Nat.mod_eq_of_lt ht, List.cons_append, List.append_assoc,
      walReadRecord, if_neg ht4,
      readFixed32_encodeFixed32 key.length (by omega),
      readFixed32_encodeFixed32 value.length (by omega),
      readFixed32_encodeFixed32 (walCalculateChecksum t key value) hck,
      if_neg (length_append_not_lt key _), List.take_left, List.drop_left,
      if_neg (length_append_not_lt value _)]
    simp
  · simp [walReadRecord, if_neg ht4, readFixed32]
  · simp only [walReadRecord, if_neg ht4,
      readFixed32_encodeFixed32 (key.length + 1) (by omega),
      readFixed32_encodeFixed32 value.length (by omega)]
    rw [if_pos (Nat.lt_add_one key.length)]
  · simp only [walReadRecord, if_neg ht4,
      readFixed32_encodeFixed32 key.length (by omega),
      readFixed32_encodeFixed32 (value.length + 1) (by omega),
      if_neg (length_append_not_lt key _), List.take_left, List.drop_left]
    rw [if_pos (Nat.lt_add_one value.length)]
  · simp only [walReadRecord, if_neg ht4,
      readFixed32_encodeFixed32 key.length (by omega),
      readFixed32_encodeFixed32 value.length (by omega),
      if_neg (length_append_not_lt key _), List.take_left, List.drop_left,
      lt_self_iff_false, ite_false, List.take_length, List.drop_length]
    simp [readFixed32]
  · have hne : ¬ walCalculateChecksum t key value =
        (walCalculateChecksum t key value + 1) % 2 ^ 32 := by
      have h32 : (2 : Nat) ^ 32 = 4294967296 := by norm_num
      rw [h32] at hck ⊢
      omega
    simp only [walReadRecord, if_neg ht4,
      readFixed32_encodeFixed32 key.length (by omega),
      readFixed32_encodeFixed32 value.length (by omega),
      readFixed32_encodeFixed32 ((walCalculateChecksum t key value + 1) % 2 ^ 32)
        (Nat.mod_lt _ (by norm_num)),
      if_neg (length_append_not_lt key _), List.take_left, List.drop_left,
      if_neg (length_append_not_lt value _), if_neg hne]

theorem wal_readrecord_behaviour_witness :
    walReadRecord (walAddRecord 1 [107] [118] ++ [6]) =
      ReadRecordResult.record 1 [107] [118] [6] :=
  (wal_readrecord_behaviour 1 [107] [118] [6] (by decide) (by decide) (by decide)
    (by decide)).2.2.1
